import Mathlib

/-!
Shallow embedding of the AlertMe repository's algorithmic core
(`alertme_immoweb.py`, `alertme_immokh.py`, `alertme_marjorietome.py`):
the seed-then-diff alert state machine, the cursor pagination step, the
atomic state persistence, URL canonicalization and the filter engine.

Modelling conventions, used throughout:
* Python `str` is Lean `String`; Python string builtins that do not
  kernel-reduce in Lean (`lower`, `strip`, `split`, `replace`, `in`,
  lexicographic `<`) are re-implemented over `List Char` so that every
  definition evaluates by `decide`.
* ISO-8601 timestamps are modelled by integers (`Int`); an absent or
  unparseable date is `none`.  `datetime.fromisoformat` comparison
  `pub_dt >= created_dt` becomes integer `≤`.
* A Python `dict` persisted to JSON is an association list with unique
  keys, in insertion order; `urlsplit`/`urlunparse` round-trips are
  modelled by a structural `Url` record whose `query` is the decoded
  key/value pair list (`urlencode` and `parse_qs`/`parse_qsl` are
  mutually inverse on the raw strings).
-/

namespace AlertMe

/-! ### String helpers (models of Python string builtins) -/

/-- Model of Python substring test `needle in hay` on `List Char`. -/
def subAux (n : List Char) : List Char → Bool
  | [] => n.isEmpty
  | c :: t => n.isPrefixOf (c :: t) || subAux n t

/-- Model of Python `needle in hay` for strings. -/
def substrB (needle hay : String) : Bool := subAux needle.toList hay.toList

/-- Model of Python `str.lower` (ASCII). -/
def toLowerStr (s : String) : String := ⟨s.toList.map Char.toLower⟩

/-- Model of Python `str.strip`. -/
def trimStr (s : String) : String :=
  ⟨((s.toList.dropWhile Char.isWhitespace).reverse.dropWhile Char.isWhitespace).reverse⟩

/-- Model of Python lexicographic string comparison `a <= b` on code points. -/
def clLe : List Char → List Char → Bool
  | [], _ => true
  | _ :: _, [] => false
  | a :: as, b :: bs =>
    if a.toNat < b.toNat then true
    else if b.toNat < a.toNat then false
    else clLe as bs

/-- `a ≤ b` for strings, as Python compares them. -/
def strLe (a b : String) : Bool := clLe a.toList b.toList

/-- The ordering relation used to model Python `sorted` on strings. -/
def strLeR (a b : String) : Prop := strLe a b = true

instance : DecidableRel strLeR := fun a b => by unfold strLeR; infer_instance

theorem clLe_total : ∀ a b : List Char, clLe a b = true ∨ clLe b a = true
  | [], _ => Or.inl rfl
  | _ :: _, [] => Or.inr rfl
  | a :: as, b :: bs => by
    simp only [clLe]
    rcases Nat.lt_trichotomy a.toNat b.toNat with h | h | h
    · left; simp [h]
    · have h1 : ¬ a.toNat < b.toNat := by omega
      have h2 : ¬ b.toNat < a.toNat := by omega
      simpa [h1, h2] using clLe_total as bs
    · right; simp [h, Nat.lt_asymm h]

theorem clLe_trans : ∀ a b c : List Char,
    clLe a b = true → clLe b c = true → clLe a c = true
  | [], _, _, _, _ => rfl
  | _ :: _, [], _, h, _ => by simp [clLe] at h
  | _ :: _, _ :: _, [], _, h => by simp [clLe] at h
  | a :: as, b :: bs, c :: cs, h1, h2 => by
    simp only [clLe] at h1 h2 ⊢
    split_ifs at h1 h2 ⊢ <;>
      first
        | rfl
        | omega
        | exact clLe_trans as bs cs h1 h2

instance : IsTotal String strLeR := ⟨fun a b => clLe_total a.toList b.toList⟩

instance : IsTrans String strLeR :=
  ⟨fun a b c => clLe_trans a.toList b.toList c.toList⟩

/-- Model of Python `sorted(<set of strings>)`: the distinct elements in
lexicographic order. -/
def sortedSet (l : List String) : List String :=
  List.insertionSort strLeR l.dedup

theorem mem_sortedSet {a : String} {l : List String} :
    a ∈ sortedSet l ↔ a ∈ l := by
  unfold sortedSet
  rw [(List.perm_insertionSort strLeR l.dedup).mem_iff]
  exact List.mem_dedup

theorem sortedSet_sorted (l : List String) :
    List.Sorted strLeR (sortedSet l) :=
  List.sorted_insertionSort strLeR l.dedup

/-! ### Persisted alert state (the `{"alerts": {...}}` JSON document) -/

/-- One record of `state["alerts"]`: `created_at_utc`, sorted `seen_codes`,
`last_run_utc`, `email` (timestamps as integers). -/
structure Alert where
  created_at_utc : Int
  seen_codes : List String
  last_run_utc : Int
  email : String
deriving DecidableEq

/-- The whole persisted document, keyed by the identity key (`canon_url`
for immoweb/marjorietome, `state_key` for immokh). -/
structure StateJ (κ : Type) where
  alerts : List (κ × Alert)
deriving DecidableEq

/-- Python dict lookup `alerts[k]` / `k in alerts` (keys are unique). -/
def alookup [DecidableEq κ] (k : κ) : List (κ × Alert) → Option Alert
  | [] => none
  | kv :: rest => if kv.1 = k then some kv.2 else alookup k rest

/-- Python in-place mutation `alerts[k][field] = ...` of the record at `k`. -/
def updAlert [DecidableEq κ] (k : κ) (f : Alert → Alert)
    (l : List (κ × Alert)) : List (κ × Alert) :=
  l.map (fun kv => if kv.1 = k then (kv.1, f kv.2) else kv)

theorem alookup_append_fresh [DecidableEq κ] (k : κ) (a : Alert) :
    ∀ l : List (κ × Alert), alookup k l = none →
      alookup k (l ++ [(k, a)]) = some a := by
  intro l
  induction l with
  | nil => intro _; simp [alookup]
  | cons kv rest ih =>
    intro h
    simp only [alookup] at h ⊢
    by_cases hk : kv.1 = k
    · simp [hk] at h
    · simpa [hk] using ih (by simpa [hk] using h)

theorem alookup_updAlert_self [DecidableEq κ] (k : κ) (f : Alert → Alert) :
    ∀ l : List (κ × Alert), alookup k (updAlert k f l) = (alookup k l).map f := by
  intro l
  induction l with
  | nil => simp [alookup, updAlert]
  | cons kv rest ih =>
    by_cases hk : kv.1 = k
    · simp [alookup, updAlert, hk]
    · simpa [alookup, updAlert, hk] using ih

theorem alookup_updAlert_other [DecidableEq κ] (k k' : κ) (f : Alert → Alert)
    (hne : k' ≠ k) :
    ∀ l : List (κ × Alert), alookup k' (updAlert k f l) = alookup k' l := by
  intro l
  induction l with
  | nil => simp [alookup, updAlert]
  | cons kv rest ih =>
    have hkk' : k ≠ k' := fun h => hne h.symm
    by_cases hk : kv.1 = k
    · simpa [alookup, updAlert, hk, hkk'] using ih
    · by_cases hk' : kv.1 = k'
      · simp [alookup, updAlert, hk, hk', hne, hkk']
      · simpa [alookup, updAlert, hk, hk'] using ih

/-! ### Immoweb variant (`alertme_immoweb.py`): seed-then-diff -/

namespace Immoweb

/-- A `ListingItem` as built by the immoweb extractors: id, url, title,
location are strings; price and publication date optional.  A missing or
unparseable publication date is `none`. -/
structure Item where
  id : String
  url : String
  title : String
  location : String
  price : Option Int
  publication_date : Option Int
deriving DecidableEq

/-- `it.get("id")` truthiness: an empty id is falsy and dropped. -/
def idOf (it : Item) : Option String :=
  if it.id = "" then none else some it.id

/-- `seed_if_needed` (alertme_immoweb.py:300-318).  On a fresh key it
stores `sorted({it["id"] for it in items if it.get("id")})` with
`created_at_utc = last_run_utc = now` and returns `True`; on an existing
key it only refreshes the email when it differs and returns `False`. -/
def seed_if_needed [DecidableEq κ] (st : StateJ κ) (key : κ) (email : String)
    (items : List Item) (now : Int) : Bool × StateJ κ :=
  match alookup key st.alerts with
  | some a =>
    if a.email ≠ email then
      (false, ⟨updAlert key (fun b => { b with email := email }) st.alerts⟩)
    else (false, st)
  | none =>
    (true, ⟨st.alerts ++
      [(key, ⟨now, sortedSet (items.filterMap idOf), now, email⟩)]⟩)

/-- `pub_ok` of `detect_new_items` (alertme_immoweb.py:335-341): true when
the item carries a parseable publication date `p` with `p >= created_dt`
(the record's creation time always parses, having been written by seed). -/
def pub_ok (created : Int) (it : Item) : Bool :=
  match it.publication_date with
  | some p => decide (created ≤ p)
  | none => false

/-- `detect_new_items` (alertme_immoweb.py:320-348).  Reports an item as
new when `pub_ok or (pid not in seen)`, then stores
`sorted(seen ∪ ids(items))` and refreshes `last_run_utc`.  `none` models
the `KeyError` when no record exists for the key. -/
def detect_new_items [DecidableEq κ] (st : StateJ κ) (key : κ)
    (items : List Item) (now : Int) :
    Option (List Item × String × StateJ κ) :=
  match alookup key st.alerts with
  | none => none
  | some a =>
    let new_list := items.filter (fun it =>
      it.id ≠ "" && (pub_ok a.created_at_utc it || !(a.seen_codes.contains it.id)))
    let codes := sortedSet (a.seen_codes ++ items.filterMap idOf)
    some (new_list, a.email,
      ⟨updAlert key (fun b => { b with seen_codes := codes, last_run_utc := now })
        st.alerts⟩)

/-- The diff stage of `run_once` (alertme_immoweb.py:637-641): seed, and
if that was the first observation return with no new-item list; otherwise
diff.  Result: (isSeedEvent, newItems, state after the run). -/
def record_or_diff [DecidableEq κ] (st : StateJ κ) (key : κ) (email : String)
    (items : List Item) (now : Int) : Bool × List Item × StateJ κ :=
  match seed_if_needed st key email items now with
  | (true, st1) => (true, [], st1)
  | (false, st1) =>
    match detect_new_items st1 key items now with
    | some (nl, _, st2) => (false, nl, st2)
    | none => (false, [], st1)

end Immoweb

/-! ### Immo-KH variant (`alertme_immokh.py`): cursor pagination, filters,
seed-then-diff without a publication-date fallback -/

namespace Immokh

/-- A listing card as parsed by `_parse_cards_from_html`
(alertme_immokh.py:173-240).  `publication_date` is always `None` there
but kept in the record, as in the source. -/
structure KhItem where
  id : String
  url : String
  title : String
  city : String
  price : Option Int
  bedrooms : Option Int
  type : Option String
  publication_date : Option Int
deriving DecidableEq

/-- `it.get("id")` truthiness: an empty id is falsy and dropped. -/
def idOf (it : KhItem) : Option String :=
  if it.id = "" then none else some it.id

/-- Model of Python `int(pid)` on the id strings used for cursor
arithmetic (decimal digits with an optional sign); a non-numeric id is
`none`, mirroring the `except` branch. -/
def digitsToNatAux : List Char → Nat → Option Nat
  | [], acc => some acc
  | c :: cs, acc =>
    if c.isDigit then digitsToNatAux cs (acc * 10 + (c.toNat - '0'.toNat))
    else none

def digitsToNat : List Char → Option Nat
  | [] => none
  | l => digitsToNatAux l 0

def strToIntQ (s : String) : Option Int :=
  match s.toList with
  | '-' :: rest => (digitsToNat rest).map (fun n => -(n : Int))
  | l => (digitsToNat l).map (fun n => (n : Int))

/-- `seed_if_needed` (alertme_immokh.py:637-654), identical in shape to
the immoweb variant. -/
def seed_if_needed [DecidableEq κ] (st : StateJ κ) (key : κ) (email : String)
    (items : List KhItem) (now : Int) : Bool × StateJ κ :=
  match alookup key st.alerts with
  | some a =>
    if a.email ≠ email then
      (false, ⟨updAlert key (fun b => { b with email := email }) st.alerts⟩)
    else (false, st)
  | none =>
    (true, ⟨st.alerts ++
      [(key, ⟨now, sortedSet (items.filterMap idOf), now, email⟩)]⟩)

/-- `detect_new_items` (alertme_immokh.py:656-663): an item is new iff it
has an id not in `seen_codes`; no publication-date fallback exists in
this variant. -/
def detect_new_items [DecidableEq κ] (st : StateJ κ) (key : κ)
    (items : List KhItem) (now : Int) :
    Option (List KhItem × String × StateJ κ) :=
  match alookup key st.alerts with
  | none => none
  | some a =>
    let new_list := items.filter (fun it =>
      it.id ≠ "" && !(a.seen_codes.contains it.id))
    let codes := sortedSet (a.seen_codes ++ items.filterMap idOf)
    some (new_list, a.email,
      ⟨updAlert key (fun b => { b with seen_codes := codes, last_run_utc := now })
        st.alerts⟩)

/-! #### Cursor pagination step (`_collect_all_pages`, alertme_immokh.py:335-389) -/

/-- Accumulator of the inner scan over `test_items`: the growing
`seen` set, the items appended to `all_items` this attempt (`addc` is
`added.length`), and `new_min`. -/
structure StepAcc where
  seen : List String
  added : List KhItem
  new_min : Option Int
deriving DecidableEq

/-- One iteration of `for it in test_items` (alertme_immokh.py:360-371):
items with a numeric id strictly below the cursor and not yet seen are
added, and `new_min` tracks the least such id. -/
def step_scan (cursor : Int) (acc : StepAcc) (it : KhItem) : StepAcc :=
  if it.id = "" then acc
  else
    match strToIntQ it.id with
    | none => acc
    | some ival =>
      if ival < cursor then
        if acc.seen.contains it.id then acc
        else
          { seen := it.id :: acc.seen,
            added := acc.added ++ [it],
            new_min := some (match acc.new_min with
              | none => ival
              | some m => if ival < m then ival else m) }
      else acc

/-- The whole scan of one fetched page fragment. -/
def step_page (cursor : Int) (seen : List String) (items : List KhItem) : StepAcc :=
  items.foldl (step_scan cursor) ⟨seen, [], none⟩

/-- The cursor update of one successful attempt
(alertme_immokh.py:372-381): `none` when `addc == 0` (the attempt is a
miss), otherwise the new cursor `new_min` (falling back to the old cursor
if `new_min` were `None`, as the source writes). -/
def step_cursor (cursor : Int) (seen : List String) (items : List KhItem) :
    Option Int :=
  let acc := step_page cursor seen items
  if acc.added.isEmpty then none
  else some (acc.new_min.getD cursor)

/-- The invariant the scan of one attempt maintains: the seen set only
grows; `new_min` is set exactly when something was added; every added
item was unseen with a numeric id strictly below the cursor; and
`new_min` is the least numeric id among the added items. -/
def StepInv (seen0 : List String) (cursor : Int) (acc : StepAcc) : Prop :=
  (∀ s ∈ seen0, s ∈ acc.seen) ∧
  (acc.added = [] ↔ acc.new_min = none) ∧
  (∀ it ∈ acc.added, it.id ∉ seen0 ∧
     ∃ iv, strToIntQ it.id = some iv ∧ iv < cursor) ∧
  (∀ m, acc.new_min = some m →
     (∀ it ∈ acc.added, ∀ iv, strToIntQ it.id = some iv → m ≤ iv) ∧
     ∃ it ∈ acc.added, strToIntQ it.id = some m)

/-! #### Filter engine (`apply_filters`, alertme_immokh.py:532-568) -/

/-- The `TYPE_ALIASES` table (alertme_immokh.py:58-69), in source order. -/
def TYPE_ALIASES : List (String × List String) :=
  [("maison",      ["maison", "villa", "house", "woning"]),
   ("appartement", ["appartement", "apartment", "flat", "appart"]),
   ("penthouse",   ["penthouse"]),
   ("duplex",      ["duplex"]),
   ("studio",      ["studio", "kot"]),
   ("terrain",     ["terrain", "terrain à bâtir", "terrain a batir", "grond", "land"]),
   ("bureau",      ["bureau", "office"]),
   ("commerce",    ["commerce", "rez-commercial", "retail", "shop"]),
   ("industriel",  ["industriel", "industrie", "entrepôt", "entrepot", "warehouse"]),
   ("garage",      ["garage", "parking", "box"])]

/-- `_classify_type` (alertme_immokh.py:166-170): first canonical type one
of whose alias words occurs in the lowered text. -/
def classifyType (text : String) : Option String :=
  let t := toLowerStr text
  (TYPE_ALIASES.find? (fun p => p.2.any (fun w => substrB w t))).map Prod.fst

/-- `_norm_types` (alertme_immokh.py:529-530). -/
def normTypes (ts : List String) : List String :=
  (ts.filter (fun t => trimStr t ≠ "")).map (fun t => toLowerStr (trimStr t))

/-- The subscriber filter set.  A key absent from the Python dict is
`none` (or `[]` for the list-valued keys, `false` for `include_sold`). -/
structure KhFilters where
  cities : List String
  price_min : Option Int
  price_max : Option Int
  bedrooms_min : Option Int
  bathrooms_min : Option Int
  area_min : Option Int
  property_types : List String
  include_sold : Bool
deriving DecidableEq

/-- Model of Python `" ".join(words)`. -/
def joinSpace : List String → String
  | [] => ""
  | [s] => s
  | s :: rest => s ++ " " ++ joinSpace rest

/-- Model of Python `str.split()` (split on whitespace runs, no empties). -/
def splitWSAux : List Char → List Char → List String
  | [], acc => if acc.isEmpty then [] else [⟨acc.reverse⟩]
  | c :: cs, acc =>
    if c.isWhitespace then
      if acc.isEmpty then splitWSAux cs []
      else (⟨acc.reverse⟩ : String) :: splitWSAux cs []
    else splitWSAux cs (c :: acc)

def splitWS (s : String) : List String := splitWSAux s.toList []

/-- `" ".join(str(it.get(k) or "") for k in ["title","city"]).lower()`. -/
def txtAll (it : KhItem) : String := toLowerStr (it.title ++ " " ++ it.city)

/-- `city_q` of `apply_filters` (alertme_immokh.py:534). -/
def cityQ (f : KhFilters) : String :=
  joinSpace (f.cities.map (fun c => toLowerStr (trimStr c)))

/-- The `t` used by the property-type check (alertme_immokh.py:550):
the item's own type, else the type classified from the card text. -/
def tVal (it : KhItem) : String :=
  let t0 := toLowerStr (it.type.getD "")
  if t0 = "" then (classifyType (txtAll it)).getD "" else t0

/-- `if city_q and not any(c in txt_all for c in city_q.split()): continue`. -/
def cityOkB (f : KhFilters) (it : KhItem) : Bool :=
  cityQ f = "" || (splitWS (cityQ f)).any (fun c => substrB c (txtAll it))

/-- `if types: ... if not t or t not in types: continue`. -/
def typeOkB (f : KhFilters) (it : KhItem) : Bool :=
  (normTypes f.property_types).isEmpty ||
    (tVal it ≠ "" && (normTypes f.property_types).contains (tVal it))

/-- `if price_min is not None and (p is None or p < price_min): continue`. -/
def pminOkB (f : KhFilters) (it : KhItem) : Bool :=
  match f.price_min with
  | none => true
  | some m => match it.price with
    | none => false
    | some p => decide (m ≤ p)

/-- `if price_max is not None and (p is None or p > price_max): continue`. -/
def pmaxOkB (f : KhFilters) (it : KhItem) : Bool :=
  match f.price_max with
  | none => true
  | some m => match it.price with
    | none => false
    | some p => decide (p ≤ m)

/-- `if bedrooms_min is not None and ((b or 0) < bedrooms_min): continue`. -/
def bedOkB (f : KhFilters) (it : KhItem) : Bool :=
  match f.bedrooms_min with
  | none => true
  | some m => decide (m ≤ it.bedrooms.getD 0)

/-- `if not include_sold and ("vendu" in txt_all or "option" in txt_all)`. -/
def soldOkB (f : KhFilters) (it : KhItem) : Bool :=
  f.include_sold || !(substrB "vendu" (txtAll it) || substrB "option" (txtAll it))

/-- The per-item body of `apply_filters` (alertme_immokh.py:544-565): the
item survives every `continue` check. -/
def khPasses (f : KhFilters) (it : KhItem) : Bool :=
  cityOkB f it && typeOkB f it && pminOkB f it && pmaxOkB f it &&
    bedOkB f it && soldOkB f it

/-- The city predicate at the `Prop` level. -/
def cityPass (f : KhFilters) (it : KhItem) : Prop :=
  cityQ f = "" ∨ ∃ w ∈ splitWS (cityQ f), substrB w (txtAll it) = true

/-- The property-type predicate at the `Prop` level. -/
def typePass (f : KhFilters) (it : KhItem) : Prop :=
  normTypes f.property_types = [] ∨
    (tVal it ≠ "" ∧ tVal it ∈ normTypes f.property_types)

/-- The minimum-price predicate at the `Prop` level: a configured minimum
demands a present price at least that large. -/
def priceMinPass (f : KhFilters) (it : KhItem) : Prop :=
  ∀ m, f.price_min = some m → ∃ p, it.price = some p ∧ m ≤ p

/-- The maximum-price predicate at the `Prop` level: a configured maximum
demands a present price at most that large. -/
def priceMaxPass (f : KhFilters) (it : KhItem) : Prop :=
  ∀ m, f.price_max = some m → ∃ p, it.price = some p ∧ p ≤ m

/-- The minimum-bedrooms predicate at the `Prop` level (an absent count
reads as 0, as `(b or 0)` does). -/
def bedroomsPass (f : KhFilters) (it : KhItem) : Prop :=
  ∀ m, f.bedrooms_min = some m → m ≤ it.bedrooms.getD 0

/-- The sold/unavailable-exclusion predicate at the `Prop` level. -/
def soldPass (f : KhFilters) (it : KhItem) : Prop :=
  f.include_sold = true ∨
    (substrB "vendu" (txtAll it) = false ∧ substrB "option" (txtAll it) = false)

/-- `apply_filters` (alertme_immokh.py:532-568).  `none` models the
falsy-`filters` early return; `bathrooms_min` and `area_min` are unused
placeholders in the source and here. -/
def apply_filters (items : List KhItem) (filters : Option KhFilters) :
    List KhItem :=
  match filters with
  | none => items
  | some f => items.filter (khPasses f)

end Immokh

/-! ### State persistence (`load_state` / `save_state`)

The three scraper variants share the same persistence code
(alertme_immoweb.py:84-102, alertme_immokh.py:83-97,
alertme_marjorietome.py:60-78).  The file system is modelled by the three
paths the code touches: `STATE_PATH`, `STATE_PATH + ".tmp"` and
`STATE_PATH + ".bak"`; `none` means the path does not exist. -/

structure FS where
  main : Option String
  tmp : Option String
  bak : Option String
deriving DecidableEq

/-- The `open(tmp, "w")` + `json.dump` part of `save_state`: writing the
temporary file, which may be interrupted after any partial content `c`. -/
def write_tmp (c : String) (fs : FS) : FS := { fs with tmp := some c }

/-- `os.replace(tmp, STATE_PATH)`: the atomic rename of the temporary
file over the record. -/
def replace_over (fs : FS) : FS :=
  match fs.tmp with
  | some t => { fs with main := some t, tmp := none }
  | none => fs

/-- `save_state` (alertme_immoweb.py:98-102): full JSON document to the
temporary path, then rename over the record. -/
def save_state (c : String) (fs : FS) : FS := replace_over (write_tmp c fs)

/-- `load_state` (alertme_immoweb.py:84-96), parameterized by the JSON
parser (`json.load` is external): a missing file yields the empty
document; an unparseable file is moved to the `.bak` path
(`os.replace(STATE_PATH, STATE_PATH + ".bak")`) and the empty document is
returned — the failure never propagates. -/
def load_state (parse : String → Option (StateJ String)) (fs : FS) :
    StateJ String × FS :=
  match fs.main with
  | none => (⟨[]⟩, fs)
  | some s =>
    match parse s with
    | some st => (st, fs)
    | none => (⟨[]⟩, { fs with main := none, bak := some s })

/-! ### URL model and canonicalizers

A URL is kept in its `urlparse`d form; the `query` component is the
decoded key/value pair list (`urlencode` of a dict and `parse_qs` /
`parse_qsl` of its output are mutually inverse on the raw strings, so the
encoded string itself never needs to be materialized). -/

structure Url where
  scheme : String
  netloc : String
  path : String
  params : String
  query : List (String × String)
  fragment : String
deriving DecidableEq

namespace Immoweb

def IMMOWEB_HOST : String := "www.immoweb.be"

/-- First-occurrence key order of a Python dict built by iteration. -/
def dedupKeys : List String → List String
  | [] => []
  | k :: ks => k :: (dedupKeys ks).filter (fun x => x ≠ k)

/-- `parse_qs` (default `keep_blank_values=False`): drop pairs with a
blank value, group values under their key, keys in first-occurrence
order. -/
def parse_qs (q : List (String × String)) : List (String × List String) :=
  let q1 := q.filter (fun kv => kv.2 ≠ "")
  (dedupKeys (q1.map Prod.fst)).map
    (fun k => (k, (q1.filter (fun kv => kv.1 = k)).map Prod.snd))

/-- Python dict assignment `q[k] = v`: replace in place, or append. -/
def dictSet (d : List (String × List String)) (k : String) (v : List String) :
    List (String × List String) :=
  if d.any (fun kv => kv.1 = k) then
    d.map (fun kv => if kv.1 = k then (k, v) else kv)
  else d ++ [(k, v)]

/-- Python `q.pop(k, None)`'s effect on the dict. -/
def dictPop (d : List (String × List String)) (k : String) :
    List (String × List String) :=
  d.filter (fun kv => kv.1 ≠ k)

/-- `urlencode({k: v[0] for k, v in q.items()})`, kept decoded. -/
def encodeFirstVals (d : List (String × List String)) : List (String × String) :=
  d.filterMap (fun kv => kv.2.head?.map (fun v => (kv.1, v)))

/-- Invariant of the query dict manipulated by `normalize_immoweb_url`:
unique keys (it is a Python dict) and every value list nonempty with
nonempty entries (what `parse_qs` produces). -/
def QDict (d : List (String × List String)) : Prop :=
  (d.map Prod.fst).Nodup ∧ ∀ kv ∈ d, kv.2 ≠ [] ∧ ∀ v ∈ kv.2, v ≠ ""

/-- `normalize_immoweb_url` (alertme_immoweb.py:105-113): reject a URL
whose netloc does not contain the immoweb host (`raise ValueError`),
force `orderBy=newest`, drop `page`, re-encode first values. -/
def normalize_immoweb_url (u : Url) : Except String Url :=
  if substrB IMMOWEB_HOST u.netloc then
    let q := dictPop (dictSet (parse_qs u.query) "orderBy" ["newest"]) "page"
    .ok { u with query := encodeFirstVals q }
  else .error "URL non-Immoweb."

/-- The alert-state effect of `run_once` (alertme_immoweb.py:590-652):
canonicalization failure returns before any state is read or written; an
empty crawl also returns; otherwise seed, and diff unless it was the
first observation.  Network fetching is abstracted into the `fetched`
item list. -/
def run_once_state (user_url : Url) (email : String) (fetched : List Item)
    (now : Int) (st : StateJ Url) : StateJ Url :=
  match normalize_immoweb_url user_url with
  | .error _ => st
  | .ok canon =>
    if fetched.isEmpty then st
    else
      match seed_if_needed st canon email fetched now with
      | (true, st1) => st1
      | (false, st1) =>
        match detect_new_items st1 canon fetched now with
        | some (_, _, st2) => st2
        | none => st1

end Immoweb

namespace Immokh

def SITE_HOST : String := "www.immo-kh.be"

/-- The fixed `LIST_URL` (alertme_immokh.py:37) in parsed form. -/
def LIST_URL : Url :=
  ⟨"https", "www.immo-kh.be", "/fr/2/chercher-bien/a-vendre", "", [], ""⟩

/-- `canonicalize_list_url` (alertme_immokh.py:666-681): a missing/empty
URL becomes `LIST_URL`; any other URL keeps its scheme and netloc (with
`https`/`SITE_HOST` defaults when empty) and is forced onto the list
path.  No input is ever rejected. -/
def canonicalize_list_url (u : Option Url) : Url :=
  match u with
  | none => LIST_URL
  | some u =>
    { scheme := if u.scheme = "" then "https" else u.scheme,
      netloc := if u.netloc = "" then SITE_HOST else u.netloc,
      path := "/fr/2/chercher-bien/a-vendre",
      params := "", query := [], fragment := "" }

end Immokh

namespace Marjorietome

def SITE_HOST : String := "immotoma.be"

/-- Model of Python `s.replace(pat, rep)` (left-to-right, non-overlapping)
on char lists; the fuel is the input length, enough because every step
consumes at least one character (the patterns used are nonempty). -/
def replaceFuel (pat rep : List Char) : Nat → List Char → List Char
  | 0, s => s
  | _ + 1, [] => []
  | n + 1, c :: cs =>
    if pat ≠ [] && pat.isPrefixOf (c :: cs) then
      rep ++ replaceFuel pat rep n ((c :: cs).drop pat.length)
    else c :: replaceFuel pat rep n cs

def replaceStr (s pat rep : String) : String :=
  ⟨replaceFuel pat.toList rep.toList s.toList.length s.toList⟩

/-- Model of `re.sub(r"\s+", " ", n)`: collapse whitespace runs to one
space. -/
def collapseWSAux : List Char → Bool → List Char
  | [], _ => []
  | c :: cs, inRun =>
    if c.isWhitespace then
      if inRun then collapseWSAux cs true
      else ' ' :: collapseWSAux cs true
    else c :: collapseWSAux cs false

def collapseWS (s : String) : String := ⟨collapseWSAux s.toList false⟩

/-- `_clean_param_name` (alertme_marjorietome.py:81-84): undo a stray
`%20`, collapse and strip whitespace, then remove the remaining spaces. -/
def clean_param_name (n : String) : String :=
  replaceStr (trimStr (collapseWS (replaceStr n "%20" " "))) " " ""

/-- `canonicalize_marjorietome_url` (alertme_marjorietome.py:86-99):
reject non-immotoma hosts, clean each parameter name, drop `paged`, keep
the first value per cleaned name. -/
def canonicalize_marjorietome_url (u : Url) : Except String Url :=
  if substrB SITE_HOST u.netloc then
    let fixed := u.query.foldl
      (fun acc kv =>
        let ck := clean_param_name kv.1
        if toLowerStr ck = "paged" then acc
        else if acc.any (fun p => p.1 = ck) then acc
        else acc ++ [(ck, kv.2)]) []
    .ok { u with query := fixed }
  else .error "URL non-immotoma."

end Marjorietome

/-! ## Claim theorems -/

/-- C1: for every state with no record for the identity key and every
incoming item list, the seed operation creates a record whose
`seen_codes` are exactly the ids of the incoming items, returns the seed
indicator `true`, and the run produces no new-item list (so the caller
emits no notification). -/
theorem seed_fresh_key_seeds_and_suppresses
    (st : StateJ String) (key email : String) (items : List Immoweb.Item)
    (now : Int)
    (hfresh : alookup key st.alerts = none)
    (hids : ∀ it ∈ items, it.id ≠ "") :
    Immoweb.record_or_diff st key email items now =
      (true, [],
        ⟨st.alerts ++
          [(key, ⟨now, sortedSet (items.filterMap Immoweb.idOf), now, email⟩)]⟩) ∧
    ∃ a, alookup key
        (Immoweb.record_or_diff st key email items now).2.2.alerts = some a ∧
      a.created_at_utc = now ∧ a.email = email ∧
      ∀ c, c ∈ a.seen_codes ↔ c ∈ items.map Immoweb.Item.id := by
  have hseed : Immoweb.seed_if_needed st key email items now =
      (true, ⟨st.alerts ++
        [(key, ⟨now, sortedSet (items.filterMap Immoweb.idOf), now, email⟩)]⟩) := by
    simp [Immoweb.seed_if_needed, hfresh]
  have hrod : Immoweb.record_or_diff st key email items now =
      (true, [],
        ⟨st.alerts ++
          [(key, ⟨now, sortedSet (items.filterMap Immoweb.idOf), now, email⟩)]⟩) := by
    simp [Immoweb.record_or_diff, hseed]
  refine ⟨hrod,
    ⟨now, sortedSet (items.filterMap Immoweb.idOf), now, email⟩, ?_, rfl, rfl, ?_⟩
  · rw [hrod]
    exact alookup_append_fresh key _ st.alerts hfresh
  · intro c
    rw [mem_sortedSet, List.mem_filterMap, List.mem_map]
    constructor
    · rintro ⟨it, hmem, hid⟩
      refine ⟨it, hmem, ?_⟩
      unfold Immoweb.idOf at hid
      by_cases he : it.id = "" <;> simp [he] at hid
      exact hid
    · rintro ⟨it, hmem, hid⟩
      refine ⟨it, hmem, ?_⟩
      unfold Immoweb.idOf
      rw [hid]
      simp [hid ▸ hids it hmem]

/-- C1 witness: a concrete fresh seed run. -/
theorem seed_fresh_key_seeds_and_suppresses_witness :
    Immoweb.record_or_diff (⟨[]⟩ : StateJ String) "k" "e"
        [⟨"B", "", "", "", none, none⟩, ⟨"A", "", "", "", none, none⟩] 3 =
      (true, [], ⟨[("k", ⟨3, ["A", "B"], 3, "e"⟩)]⟩) ∧
    ∃ a, alookup "k"
        (Immoweb.record_or_diff (⟨[]⟩ : StateJ String) "k" "e"
          [⟨"B", "", "", "", none, none⟩, ⟨"A", "", "", "", none, none⟩] 3).2.2.alerts =
        some a ∧
      a.created_at_utc = 3 ∧ a.email = "e" ∧
      ∀ c, c ∈ a.seen_codes ↔
        c ∈ ([⟨"B", "", "", "", none, none⟩,
              ⟨"A", "", "", "", none, none⟩] : List Immoweb.Item).map Immoweb.Item.id :=
  seed_fresh_key_seeds_and_suppresses ⟨[]⟩ "k" "e"
    [⟨"B", "", "", "", none, none⟩, ⟨"A", "", "", "", none, none⟩] 3
    (by decide) (by decide)

/-- C2: for every existing record and observed item list, the diff
operation stores a `seen_codes` list that is sorted and contains every
previously seen id — ids are added, never removed. -/
theorem detect_new_items_monotone_sorted
    (st : StateJ String) (key : String) (items : List Immoweb.Item) (now : Int)
    (a : Alert) (h : alookup key st.alerts = some a) :
    ∃ nl st1,
      Immoweb.detect_new_items st key items now = some (nl, a.email, st1) ∧
      ∃ a1, alookup key st1.alerts = some a1 ∧
        List.Sorted strLeR a1.seen_codes ∧
        ∀ c ∈ a.seen_codes, c ∈ a1.seen_codes := by
  have hdet : Immoweb.detect_new_items st key items now =
      some (items.filter (fun it =>
              it.id ≠ "" &&
                (Immoweb.pub_ok a.created_at_utc it || !(a.seen_codes.contains it.id))),
            a.email,
            ⟨updAlert key (fun b => { b with
                seen_codes := sortedSet (a.seen_codes ++ items.filterMap Immoweb.idOf),
                last_run_utc := now }) st.alerts⟩) := by
    simp [Immoweb.detect_new_items, h]
  refine ⟨_, _, hdet, ?_⟩
  have hup := alookup_updAlert_self key
    (fun b => { b with
      seen_codes := sortedSet (a.seen_codes ++ items.filterMap Immoweb.idOf),
      last_run_utc := now }) st.alerts
  rw [h] at hup
  refine ⟨_, hup, ?_, ?_⟩
  · exact sortedSet_sorted _
  · intro c hc
    exact mem_sortedSet.mpr (List.mem_append.mpr (Or.inl hc))

/-- C2 witness: a concrete diff run over an existing record. -/
theorem detect_new_items_monotone_sorted_witness :
    ∃ nl st1,
      Immoweb.detect_new_items (⟨[("k", ⟨0, ["B"], 0, "e"⟩)]⟩ : StateJ String) "k"
          [⟨"A", "", "", "", none, none⟩] 7 = some (nl, "e", st1) ∧
      ∃ a1, alookup "k" st1.alerts = some a1 ∧
        List.Sorted strLeR a1.seen_codes ∧
        ∀ c ∈ (["B"] : List String), c ∈ a1.seen_codes :=
  detect_new_items_monotone_sorted ⟨[("k", ⟨0, ["B"], 0, "e"⟩)]⟩ "k"
    [⟨"A", "", "", "", none, none⟩] 7 ⟨0, ["B"], 0, "e"⟩ (by decide)

/-- C5: `save_state` writes the full document to the temporary path and
then atomically renames it over the record: a crash during the
temporary-file write (arbitrary partial content `p`) leaves the record —
and hence what `load_state` parses — exactly as before, and a completed
save leaves the full new document. -/
theorem save_state_atomic_crash_safety (fs : FS) (c p : String)
    (parse : String → Option (StateJ String)) :
    (write_tmp p fs).main = fs.main ∧
    (load_state parse (write_tmp p fs)).1 = (load_state parse fs).1 ∧
    save_state c fs = { main := some c, tmp := none, bak := fs.bak } := by
  refine ⟨rfl, ?_, rfl⟩
  cases hm : fs.main with
  | none => simp [load_state, write_tmp, hm]
  | some s => cases hp : parse s <;> simp [load_state, write_tmp, hm, hp]

/-- C6: when the on-disk state cannot be parsed, `load_state` returns the
empty `{"alerts": {}}` document instead of propagating the failure, and
preserves the corrupt content under the `.bak` path. -/
theorem load_state_corruption_resets
    (parse : String → Option (StateJ String)) (fs : FS) (s : String)
    (hmain : fs.main = some s) (hbad : parse s = none) :
    load_state parse fs =
      (⟨[]⟩, { fs with main := none, bak := some s }) := by
  simp [load_state, hmain, hbad]

/-- C6 witness: a concrete corrupt state file. -/
theorem load_state_corruption_resets_witness :
    load_state (fun _ => none) ⟨some "oops", none, none⟩ =
      ((⟨[]⟩ : StateJ String), ⟨none, none, some "oops"⟩) :=
  load_state_corruption_resets (fun _ => none) ⟨some "oops", none, none⟩ "oops"
    rfl rfl

/-- C10: seeding over an existing record with a different subscriber
email returns `false` and rewrites only the email field: creation time,
seen ids and last-run time of that record are unchanged, as are all
records for other identity keys. -/
theorem seed_existing_email_frame
    (st : StateJ String) (key email : String) (items : List Immoweb.Item)
    (now : Int) (a : Alert)
    (h : alookup key st.alerts = some a) (hne : a.email ≠ email) :
    (Immoweb.seed_if_needed st key email items now).1 = false ∧
    (∃ a1, alookup key
        (Immoweb.seed_if_needed st key email items now).2.alerts = some a1 ∧
      a1.email = email ∧ a1.created_at_utc = a.created_at_utc ∧
      a1.seen_codes = a.seen_codes ∧ a1.last_run_utc = a.last_run_utc) ∧
    ∀ k', k' ≠ key →
      alookup k' (Immoweb.seed_if_needed st key email items now).2.alerts =
        alookup k' st.alerts := by
  have hseed : Immoweb.seed_if_needed st key email items now =
      (false, ⟨updAlert key (fun b => { b with email := email }) st.alerts⟩) := by
    simp [Immoweb.seed_if_needed, h, hne]
  rw [hseed]
  refine ⟨rfl, ?_, ?_⟩
  · have hup := alookup_updAlert_self key
      (fun b => { b with email := email }) st.alerts
    rw [h] at hup
    exact ⟨_, hup, rfl, rfl, rfl, rfl⟩
  · intro k' hk'
    exact alookup_updAlert_other key k'
      (fun b => { b with email := email }) hk' st.alerts

/-- C10 witness: a concrete email change on an existing record. -/
theorem seed_existing_email_frame_witness :
    (Immoweb.seed_if_needed
        (⟨[("k", ⟨5, ["A"], 6, "old"⟩), ("j", ⟨1, [], 1, "x"⟩)]⟩ : StateJ String)
        "k" "new" [] 9).1 =
      false ∧
    (∃ a1, alookup "k"
        (Immoweb.seed_if_needed
          (⟨[("k", ⟨5, ["A"], 6, "old"⟩), ("j", ⟨1, [], 1, "x"⟩)]⟩ : StateJ String)
          "k" "new" [] 9).2.alerts =
        some a1 ∧
      a1.email = "new" ∧ a1.created_at_utc = 5 ∧
      a1.seen_codes = ["A"] ∧ a1.last_run_utc = 6) ∧
    ∀ k', k' ≠ "k" →
      alookup k'
        (Immoweb.seed_if_needed
          (⟨[("k", ⟨5, ["A"], 6, "old"⟩), ("j", ⟨1, [], 1, "x"⟩)]⟩ : StateJ String)
          "k" "new" [] 9).2.alerts =
        alookup k' [("k", ⟨5, ["A"], 6, "old"⟩), ("j", ⟨1, [], 1, "x"⟩)] :=
  seed_existing_email_frame ⟨[("k", ⟨5, ["A"], 6, "old"⟩), ("j", ⟨1, [], 1, "x"⟩)]⟩
    "k" "new" [] 9 ⟨5, ["A"], 6, "old"⟩ (by decide) (by decide)

/-- C3 counterexample: an already-seen item whose publication date equals
the record's creation time (so is **not** strictly newer) is still
reported as new — the immoweb code compares with `>=`, not `>`. -/
theorem pubdate_strictness_cex :
    (Immoweb.detect_new_items (⟨[("k", ⟨100, ["A"], 100, "e"⟩)]⟩ : StateJ String) "k"
        [⟨"A", "u", "t", "l", none, some 100⟩] 200).map (fun r => r.1) =
      some [⟨"A", "u", "t", "l", none, some 100⟩] ∧
    "A" ∈ (⟨100, ["A"], 100, "e"⟩ : Alert).seen_codes ∧
    (⟨"A", "u", "t", "l", none, some 100⟩ : Immoweb.Item).publication_date =
      some 100 ∧
    ¬ ((⟨100, ["A"], 100, "e"⟩ : Alert).created_at_utc <
        (100 : Int)) := by
  refine ⟨by decide, by decide, rfl, by decide⟩

/-- C3 (amended): in the immoweb variant an already-seen item is reported
as new iff it carries a publication date at or after (`>=`, not strictly
after) the record's creation time; in the immokh variant publication
dates are never consulted and an already-seen item is never re-reported;
and the spec's seed `{A,B,C}` at `T0` / observe `{A,B,C,D}` with
`D.publicationDate = T0+1h` example yields `newItems = [D]` and
`seenIds = {A,B,C,D}`. -/
theorem seen_item_renotify_semantics :
    (∀ (st : StateJ String) (key : String) (items : List Immoweb.Item)
       (now : Int) (a : Alert) (it : Immoweb.Item),
       alookup key st.alerts = some a → it ∈ items → it.id ≠ "" →
       it.id ∈ a.seen_codes →
       ∃ nl st1,
         Immoweb.detect_new_items st key items now = some (nl, a.email, st1) ∧
         (it ∈ nl ↔ ∃ p, it.publication_date = some p ∧ a.created_at_utc ≤ p)) ∧
    (∀ (st : StateJ String) (key : String) (items : List Immokh.KhItem)
       (now : Int) (a : Alert) (it : Immokh.KhItem)
       (nl : List Immokh.KhItem) (em : String) (st1 : StateJ String),
       alookup key st.alerts = some a → it.id ∈ a.seen_codes →
       Immokh.detect_new_items st key items now = some (nl, em, st1) →
       it ∉ nl) ∧
    ((Immoweb.detect_new_items
        (Immoweb.seed_if_needed (⟨[]⟩ : StateJ String) "k" "e"
          [⟨"A", "", "", "", none, none⟩, ⟨"B", "", "", "", none, none⟩,
           ⟨"C", "", "", "", none, none⟩] 1000).2
        "k"
        [⟨"A", "", "", "", none, none⟩, ⟨"B", "", "", "", none, none⟩,
         ⟨"C", "", "", "", none, none⟩, ⟨"D", "", "", "", none, some 4600⟩]
        5000).map
          (fun r => (r.1, (alookup "k" r.2.2.alerts).map Alert.seen_codes)) =
      some ([⟨"D", "", "", "", none, some 4600⟩], some ["A", "B", "C", "D"])) := by
  refine ⟨?_, ?_, by decide⟩
  · intro st key items now a it h hmem hid hseen
    have hdet : Immoweb.detect_new_items st key items now =
        some (items.filter (fun x =>
                x.id ≠ "" &&
                  (Immoweb.pub_ok a.created_at_utc x ||
                   !(a.seen_codes.contains x.id))),
              a.email,
              ⟨updAlert key (fun b => { b with
                  seen_codes :=
                    sortedSet (a.seen_codes ++ items.filterMap Immoweb.idOf),
                  last_run_utc := now }) st.alerts⟩) := by
      simp [Immoweb.detect_new_items, h]
    refine ⟨_, _, hdet, ?_⟩
    have hcont : a.seen_codes.contains it.id = true :=
      List.elem_eq_true_of_mem hseen
    rw [List.mem_filter]
    cases hpub : it.publication_date with
    | none => simp [Immoweb.pub_ok, hpub, hid, hcont, hmem, hseen]
    | some p => simp [Immoweb.pub_ok, hpub, hid, hcont, hmem, hseen]
  · intro st key items now a it nl em st1 h hseen hdet
    simp [Immokh.detect_new_items, h] at hdet
    intro hin
    rw [← hdet.1, List.mem_filter] at hin
    have h2 := hin.2
    simp at h2
    exact h2.2 hseen

/-- C3 witness: a concrete already-seen item with a later publication
date in the immoweb diff. -/
theorem seen_item_renotify_semantics_witness :
    ∃ nl st1,
      Immoweb.detect_new_items (⟨[("k", ⟨100, ["A"], 100, "e"⟩)]⟩ : StateJ String)
          "k" [⟨"A", "", "", "", none, some 4600⟩] 200 = some (nl, "e", st1) ∧
      (⟨"A", "", "", "", none, some 4600⟩ ∈ nl ↔
        ∃ p, (⟨"A", "", "", "", none, some 4600⟩ : Immoweb.Item).publication_date =
            some p ∧ (100 : Int) ≤ p) :=
  seen_item_renotify_semantics.1 ⟨[("k", ⟨100, ["A"], 100, "e"⟩)]⟩ "k"
    [⟨"A", "", "", "", none, some 4600⟩] 200 ⟨100, ["A"], 100, "e"⟩
    ⟨"A", "", "", "", none, some 4600⟩ (by decide) (by decide) (by decide)
    (by decide)

theorem step_scan_inv (cursor : Int) (seen0 : List String)
    (acc : Immokh.StepAcc) (it : Immokh.KhItem)
    (h : Immokh.StepInv seen0 cursor acc) :
    Immokh.StepInv seen0 cursor (Immokh.step_scan cursor acc it) := by
  obtain ⟨hsub, hiff, hadd, hmin⟩ := h
  unfold Immokh.step_scan
  by_cases hid : it.id = ""
  · simpa [hid] using ⟨hsub, hiff, hadd, hmin⟩
  · simp only [hid, if_false]
    cases hint : Immokh.strToIntQ it.id with
    | none => exact ⟨hsub, hiff, hadd, hmin⟩
    | some ival =>
      by_cases hlt : ival < cursor
      · by_cases hcont : acc.seen.contains it.id = true
        · simp only [hlt, if_true, hcont, if_true]
          exact ⟨hsub, hiff, hadd, hmin⟩
        · have hcf : acc.seen.contains it.id = false := by
            simpa using hcont
          simp only [hlt, if_true, hcf, Bool.false_eq_true, if_false]
          refine ⟨?_, ?_, ?_, ?_⟩
          · exact fun s hs => List.mem_cons_of_mem _ (hsub s hs)
          · constructor
            · intro habs; simp at habs
            · intro habs; simp at habs
          · intro x hx
            rcases List.mem_append.mp hx with hx | hx
            · exact hadd x hx
            · rw [List.mem_singleton.mp hx]
              refine ⟨?_, ival, hint, hlt⟩
              intro hmem0
              have hct : acc.seen.contains it.id = true :=
                List.elem_eq_true_of_mem (hsub it.id hmem0)
              rw [hct] at hcf
              exact Bool.true_eq_false.mp hcf
          · intro m hm
            cases hold : acc.new_min with
            | none =>
              rw [hold] at hm
              have hm' : ival = m := by simpa using hm
              subst hm'
              have haddnil : acc.added = [] := hiff.mpr hold
              constructor
              · intro x hx iv hiv
                rw [haddnil] at hx
                have hxit : x = it := by simpa using hx
                rw [hxit, hint] at hiv
                have hieq : ival = iv := by simpa using hiv
                omega
              · exact ⟨it, by simp [haddnil], hint⟩
            | some mold =>
              rw [hold] at hm
              have hm' : (if ival < mold then ival else mold) = m := by
                simpa using hm
              obtain ⟨hbold, x0, hx0, hx0i⟩ := hmin mold hold
              constructor
              · intro x hx iv hiv
                rcases List.mem_append.mp hx with hx | hx
                · have h1 := hbold x hx iv hiv
                  by_cases him : ival < mold
                  · rw [if_pos him] at hm'; omega
                  · rw [if_neg him] at hm'; omega
                · have hxit : x = it := by simpa using hx
                  rw [hxit, hint] at hiv
                  have h2 : ival = iv := by simpa using hiv
                  by_cases him : ival < mold
                  · rw [if_pos him] at hm'; omega
                  · rw [if_neg him] at hm'; omega
              · by_cases him : ival < mold
                · rw [if_pos him] at hm'
                  exact ⟨it, by simp, by rw [← hm']; exact hint⟩
                · rw [if_neg him] at hm'
                  exact ⟨x0, List.mem_append_left _ hx0, by rw [← hm']; exact hx0i⟩
      · simp only [hlt, if_false]
        exact ⟨hsub, hiff, hadd, hmin⟩

theorem step_fold_inv (cursor : Int) (seen0 : List String) :
    ∀ (items : List Immokh.KhItem) (acc : Immokh.StepAcc),
      Immokh.StepInv seen0 cursor acc →
      Immokh.StepInv seen0 cursor (items.foldl (Immokh.step_scan cursor) acc)
  | [], _, h => h
  | it :: rest, acc, h =>
    step_fold_inv cursor seen0 rest _ (step_scan_inv cursor seen0 acc it h)

/-- C4: a successful (advancing) pagination attempt strictly decreases
the cursor: only items with a numeric id strictly below the current
cursor and not yet seen this crawl are added, and the new cursor is the
minimum numeric id among them — hence strictly below the old cursor. -/
theorem cursor_step_strictly_decreases
    (cursor : Int) (seen : List String) (items : List Immokh.KhItem)
    (c' : Int) (h : Immokh.step_cursor cursor seen items = some c') :
    c' < cursor ∧
    (∀ it ∈ (Immokh.step_page cursor seen items).added,
       it.id ∉ seen ∧ ∃ iv, Immokh.strToIntQ it.id = some iv ∧ iv < cursor) ∧
    (∀ it ∈ (Immokh.step_page cursor seen items).added,
       ∀ iv, Immokh.strToIntQ it.id = some iv → c' ≤ iv) ∧
    (∃ it ∈ (Immokh.step_page cursor seen items).added,
       Immokh.strToIntQ it.id = some c') := by
  obtain ⟨hsub, hiff, hadd, hmin⟩ :=
    step_fold_inv cursor seen items ⟨seen, [], none⟩
      ⟨fun s hs => hs, by simp, by simp, by simp⟩
  simp only [Immokh.step_cursor] at h
  by_cases he : (Immokh.step_page cursor seen items).added.isEmpty
  · rw [if_pos he] at h
    exact absurd h (by simp)
  · rw [if_neg he] at h
    have hne : (Immokh.step_page cursor seen items).added ≠ [] := by
      simpa [List.isEmpty_eq_false] using he
    cases hnm : (Immokh.step_page cursor seen items).new_min with
    | none => exact absurd (hiff.mpr hnm) hne
    | some m =>
      rw [hnm] at h
      have hm : m = c' := by simpa using h
      subst hm
      obtain ⟨hbound, x, hx, hxi⟩ := hmin m hnm
      refine ⟨?_, hadd, hbound, x, hx, hxi⟩
      obtain ⟨-, iv, hiv, hivlt⟩ := hadd x hx
      rw [hiv] at hxi
      have hivm : iv = m := Option.some.inj hxi
      omega

/-- C4 witness: a concrete advancing step (cursor 100, one fresh item
with numeric id 50, one above the cursor, one already seen, one
non-numeric). -/
theorem cursor_step_strictly_decreases_witness :
    (50 : Int) < 100 ∧
    (∀ it ∈ (Immokh.step_page 100 ["60"]
        [⟨"50", "", "", "", none, none, none, none⟩,
         ⟨"200", "", "", "", none, none, none, none⟩,
         ⟨"60", "", "", "", none, none, none, none⟩,
         ⟨"ab", "", "", "", none, none, none, none⟩]).added,
       it.id ∉ (["60"] : List String) ∧
       ∃ iv, Immokh.strToIntQ it.id = some iv ∧ iv < 100) ∧
    (∀ it ∈ (Immokh.step_page 100 ["60"]
        [⟨"50", "", "", "", none, none, none, none⟩,
         ⟨"200", "", "", "", none, none, none, none⟩,
         ⟨"60", "", "", "", none, none, none, none⟩,
         ⟨"ab", "", "", "", none, none, none, none⟩]).added,
       ∀ iv, Immokh.strToIntQ it.id = some iv → (50 : Int) ≤ iv) ∧
    (∃ it ∈ (Immokh.step_page 100 ["60"]
        [⟨"50", "", "", "", none, none, none, none⟩,
         ⟨"200", "", "", "", none, none, none, none⟩,
         ⟨"60", "", "", "", none, none, none, none⟩,
         ⟨"ab", "", "", "", none, none, none, none⟩]).added,
       Immokh.strToIntQ it.id = some 50) :=
  cursor_step_strictly_decreases 100 ["60"]
    [⟨"50", "", "", "", none, none, none, none⟩,
     ⟨"200", "", "", "", none, none, none, none⟩,
     ⟨"60", "", "", "", none, none, none, none⟩,
     ⟨"ab", "", "", "", none, none, none, none⟩] 50 (by decide)

theorem cityOkB_iff (f : Immokh.KhFilters) (it : Immokh.KhItem) :
    Immokh.cityOkB f it = true ↔ Immokh.cityPass f it := by
  simp [Immokh.cityOkB, Immokh.cityPass, List.any_eq_true]

theorem typeOkB_iff (f : Immokh.KhFilters) (it : Immokh.KhItem) :
    Immokh.typeOkB f it = true ↔ Immokh.typePass f it := by
  simp [Immokh.typeOkB, Immokh.typePass, List.isEmpty_iff, List.elem_iff]

theorem pminOkB_iff (f : Immokh.KhFilters) (it : Immokh.KhItem) :
    Immokh.pminOkB f it = true ↔ Immokh.priceMinPass f it := by
  unfold Immokh.pminOkB Immokh.priceMinPass
  cases hm : f.price_min <;> cases hp : it.price <;> simp [hm, hp]

theorem pmaxOkB_iff (f : Immokh.KhFilters) (it : Immokh.KhItem) :
    Immokh.pmaxOkB f it = true ↔ Immokh.priceMaxPass f it := by
  unfold Immokh.pmaxOkB Immokh.priceMaxPass
  cases hm : f.price_max <;> cases hp : it.price <;> simp [hm, hp]

theorem bedOkB_iff (f : Immokh.KhFilters) (it : Immokh.KhItem) :
    Immokh.bedOkB f it = true ↔ Immokh.bedroomsPass f it := by
  unfold Immokh.bedOkB Immokh.bedroomsPass
  cases hm : f.bedrooms_min <;> simp [hm]

theorem soldOkB_iff (f : Immokh.KhFilters) (it : Immokh.KhItem) :
    Immokh.soldOkB f it = true ↔ Immokh.soldPass f it := by
  simp [Immokh.soldOkB, Immokh.soldPass]

theorem khPasses_iff (f : Immokh.KhFilters) (it : Immokh.KhItem) :
    Immokh.khPasses f it = true ↔
      Immokh.cityPass f it ∧ Immokh.typePass f it ∧ Immokh.priceMinPass f it ∧
      Immokh.priceMaxPass f it ∧ Immokh.bedroomsPass f it ∧
      Immokh.soldPass f it := by
  unfold Immokh.khPasses
  simp only [Bool.and_eq_true, cityOkB_iff, typeOkB_iff, pminOkB_iff,
    pmaxOkB_iff, bedOkB_iff, soldOkB_iff, and_assoc]

/-- C9: an item passes the filter engine iff every configured predicate
holds (logical AND of the city, type, price-bound, bedroom and sold
checks); a configured price bound fails an item with no price, and a
configured positive bedroom minimum fails an item with no bedroom count
(the fields the predicates require); and the spec's examples: price
250000 / 2 bedrooms is excluded under `price_max = 200000` and included
under `price_max = 300000, bedrooms_min = 2`. -/
theorem apply_filters_and_composition :
    (∀ (f : Immokh.KhFilters) (items : List Immokh.KhItem)
       (it : Immokh.KhItem),
       it ∈ Immokh.apply_filters items (some f) ↔
         it ∈ items ∧ Immokh.cityPass f it ∧ Immokh.typePass f it ∧
           Immokh.priceMinPass f it ∧ Immokh.priceMaxPass f it ∧
           Immokh.bedroomsPass f it ∧ Immokh.soldPass f it) ∧
    (∀ (f : Immokh.KhFilters) (items : List Immokh.KhItem)
       (it : Immokh.KhItem), f.price_max ≠ none → it.price = none →
       it ∉ Immokh.apply_filters items (some f)) ∧
    (∀ (f : Immokh.KhFilters) (items : List Immokh.KhItem)
       (it : Immokh.KhItem), f.price_min ≠ none → it.price = none →
       it ∉ Immokh.apply_filters items (some f)) ∧
    (∀ (f : Immokh.KhFilters) (items : List Immokh.KhItem)
       (it : Immokh.KhItem) (m : Int),
       f.bedrooms_min = some m → 0 < m → it.bedrooms = none →
       it ∉ Immokh.apply_filters items (some f)) ∧
    (Immokh.apply_filters
       [⟨"1", "", "", "", some 250000, some 2, none, none⟩]
       (some ⟨[], none, some 200000, none, none, none, [], false⟩) = []) ∧
    (Immokh.apply_filters
       [⟨"1", "", "", "", some 250000, some 2, none, none⟩]
       (some ⟨[], none, some 300000, some 2, none, none, [], false⟩) =
       [⟨"1", "", "", "", some 250000, some 2, none, none⟩]) := by
  have hmain : ∀ (f : Immokh.KhFilters) (items : List Immokh.KhItem)
      (it : Immokh.KhItem),
      it ∈ Immokh.apply_filters items (some f) ↔
        it ∈ items ∧ Immokh.cityPass f it ∧ Immokh.typePass f it ∧
          Immokh.priceMinPass f it ∧ Immokh.priceMaxPass f it ∧
          Immokh.bedroomsPass f it ∧ Immokh.soldPass f it := by
    intro f items it
    show it ∈ items.filter (Immokh.khPasses f) ↔ _
    rw [List.mem_filter, khPasses_iff]
  refine ⟨hmain, ?_, ?_, ?_, by decide, by decide⟩
  · intro f items it hmax hp hin
    obtain ⟨-, -, -, -, hpm, -, -⟩ := (hmain f items it).mp hin
    cases hM : f.price_max with
    | none => exact hmax hM
    | some M =>
      obtain ⟨p, hp', -⟩ := hpm M hM
      rw [hp] at hp'
      exact Option.noConfusion hp'
  · intro f items it hmin hp hin
    obtain ⟨-, -, -, hpm, -, -, -⟩ := (hmain f items it).mp hin
    cases hM : f.price_min with
    | none => exact hmin hM
    | some M =>
      obtain ⟨p, hp', -⟩ := hpm M hM
      rw [hp] at hp'
      exact Option.noConfusion hp'
  · intro f items it m hm hmpos hb hin
    obtain ⟨-, -, -, -, -, hbed, -⟩ := (hmain f items it).mp hin
    have := hbed m hm
    rw [hb] at this
    simp at this
    omega

/-- C9 witness: the spec's included example via the iff, and a priced
filter rejecting a price-less item. -/
theorem apply_filters_and_composition_witness :
    ((⟨"1", "", "", "", some 250000, some 2, none, none⟩ : Immokh.KhItem) ∈
        Immokh.apply_filters
          [⟨"1", "", "", "", some 250000, some 2, none, none⟩]
          (some ⟨[], none, some 300000, some 2, none, none, [], false⟩) ↔
      (⟨"1", "", "", "", some 250000, some 2, none, none⟩ : Immokh.KhItem) ∈
          [(⟨"1", "", "", "", some 250000, some 2, none, none⟩ : Immokh.KhItem)] ∧
        Immokh.cityPass ⟨[], none, some 300000, some 2, none, none, [], false⟩
          ⟨"1", "", "", "", some 250000, some 2, none, none⟩ ∧
        Immokh.typePass ⟨[], none, some 300000, some 2, none, none, [], false⟩
          ⟨"1", "", "", "", some 250000, some 2, none, none⟩ ∧
        Immokh.priceMinPass ⟨[], none, some 300000, some 2, none, none, [], false⟩
          ⟨"1", "", "", "", some 250000, some 2, none, none⟩ ∧
        Immokh.priceMaxPass ⟨[], none, some 300000, some 2, none, none, [], false⟩
          ⟨"1", "", "", "", some 250000, some 2, none, none⟩ ∧
        Immokh.bedroomsPass ⟨[], none, some 300000, some 2, none, none, [], false⟩
          ⟨"1", "", "", "", some 250000, some 2, none, none⟩ ∧
        Immokh.soldPass ⟨[], none, some 300000, some 2, none, none, [], false⟩
          ⟨"1", "", "", "", some 250000, some 2, none, none⟩) ∧
    (⟨"2", "", "", "", none, none, none, none⟩ : Immokh.KhItem) ∉
      Immokh.apply_filters [⟨"2", "", "", "", none, none, none, none⟩]
        (some ⟨[], none, some 300000, none, none, none, [], false⟩) :=
  ⟨apply_filters_and_composition.1
      ⟨[], none, some 300000, some 2, none, none, [], false⟩
      [⟨"1", "", "", "", some 250000, some 2, none, none⟩]
      ⟨"1", "", "", "", some 250000, some 2, none, none⟩,
   apply_filters_and_composition.2.1
      ⟨[], none, some 300000, none, none, none, [], false⟩
      [⟨"2", "", "", "", none, none, none, none⟩]
      ⟨"2", "", "", "", none, none, none, none⟩ (by decide) rfl⟩

/-- C7 counterexample: the immokh canonicalizer does not fail on a
host-mismatched URL — it returns a canonical list URL on the foreign
host. -/
theorem immokh_canonicalize_accepts_foreign_host_cex :
    Immokh.canonicalize_list_url (some ⟨"https", "evil.com", "/x", "", [], ""⟩) =
      ⟨"https", "evil.com", "/fr/2/chercher-bien/a-vendre", "", [], ""⟩ ∧
    substrB Immokh.SITE_HOST "evil.com" = false := by
  exact ⟨rfl, by decide⟩

/-- C7 (amended): the immoweb canonicalizer rejects a host-mismatched URL
with a `ValueError` and such a run leaves the alert state exactly as it
was; the immokh canonicalizer, by contrast, never rejects any input — it
totally maps every URL onto the fixed list path, keeping the given
host. -/
theorem invalid_target_skips_state
    (u : Url) (hhost : substrB Immoweb.IMMOWEB_HOST u.netloc = false) :
    Immoweb.normalize_immoweb_url u = .error "URL non-Immoweb." ∧
    (∀ (email : String) (fetched : List Immoweb.Item) (now : Int)
       (st : StateJ Url),
       Immoweb.run_once_state u email fetched now st = st) ∧
    (∀ v : Url, Immokh.canonicalize_list_url (some v) =
       ⟨if v.scheme = "" then "https" else v.scheme,
        if v.netloc = "" then Immokh.SITE_HOST else v.netloc,
        "/fr/2/chercher-bien/a-vendre", "", [], ""⟩) := by
  have herr : Immoweb.normalize_immoweb_url u = .error "URL non-Immoweb." := by
    simp [Immoweb.normalize_immoweb_url, hhost]
  refine ⟨herr, ?_, fun v => rfl⟩
  intro email fetched now st
  simp [Immoweb.run_once_state, herr]

/-- C7 witness: a concrete host-mismatched URL. -/
theorem invalid_target_skips_state_witness :
    Immoweb.normalize_immoweb_url ⟨"https", "evil.com", "/x", "", [], ""⟩ =
      .error "URL non-Immoweb." ∧
    (∀ (email : String) (fetched : List Immoweb.Item) (now : Int)
       (st : StateJ Url),
       Immoweb.run_once_state ⟨"https", "evil.com", "/x", "", [], ""⟩
         email fetched now st = st) ∧
    (∀ v : Url, Immokh.canonicalize_list_url (some v) =
       ⟨if v.scheme = "" then "https" else v.scheme,
        if v.netloc = "" then Immokh.SITE_HOST else v.netloc,
        "/fr/2/chercher-bien/a-vendre", "", [], ""⟩) :=
  invalid_target_skips_state ⟨"https", "evil.com", "/x", "", [], ""⟩ (by decide)

theorem mem_dedupKeys (a : String) :
    ∀ l : List String, a ∈ Immoweb.dedupKeys l ↔ a ∈ l
  | [] => Iff.rfl
  | k :: ks => by
    unfold Immoweb.dedupKeys
    by_cases hak : a = k
    · simp [hak]
    · simp only [List.mem_cons, List.mem_filter, decide_eq_true_eq]
      constructor
      · rintro (h | ⟨h, -⟩)
        · exact Or.inl h
        · exact Or.inr ((mem_dedupKeys a ks).mp h)
      · rintro (h | h)
        · exact Or.inl h
        · exact Or.inr ⟨(mem_dedupKeys a ks).mpr h, hak⟩

theorem nodup_dedupKeys : ∀ l : List String, (Immoweb.dedupKeys l).Nodup
  | [] => List.nodup_nil
  | k :: ks => by
    unfold Immoweb.dedupKeys
    refine List.Nodup.cons ?_ ((nodup_dedupKeys ks).filter _)
    intro hmem
    rw [List.mem_filter] at hmem
    simp at hmem

theorem dedupKeys_eq_self : ∀ l : List String, l.Nodup → Immoweb.dedupKeys l = l
  | [], _ => rfl
  | k :: ks, h => by
    unfold Immoweb.dedupKeys
    obtain ⟨hk, hks⟩ := List.nodup_cons.mp h
    rw [dedupKeys_eq_self ks hks]
    congr 1
    refine List.filter_eq_self.mpr ?_
    intro x hx
    have hxk : x ≠ k := by
      intro h'
      rw [h'] at hx
      exact hk hx
    simpa using hxk

theorem keys_map_entries : ∀ e : List (String × String),
    (e.map Prod.fst).Nodup →
    (e.map Prod.fst).map
      (fun k => (k, (e.filter (fun kv => kv.1 = k)).map Prod.snd)) =
    e.map (fun kv => (kv.1, [kv.2]))
  | [], _ => rfl
  | kv :: rest, h => by
    rw [List.map_cons] at h
    obtain ⟨hk, hrest⟩ := List.nodup_cons.mp h
    simp only [List.map_cons]
    congr 1
    · have hfil : (kv :: rest).filter (fun x => x.1 = kv.1) = [kv] := by
        rw [List.filter_cons, if_pos (by simp)]
        have hnil : rest.filter (fun x => x.1 = kv.1) = [] := by
          refine List.filter_eq_nil_iff.mpr ?_
          intro x hx h'
          have hx1 : x.1 = kv.1 := by simpa using h'
          exact hk (hx1 ▸ List.mem_map_of_mem Prod.fst hx)
        rw [hnil]
      rw [hfil]
      rfl
    · calc (rest.map Prod.fst).map
            (fun k => (k, ((kv :: rest).filter (fun x => x.1 = k)).map Prod.snd))
          = (rest.map Prod.fst).map
            (fun k => (k, (rest.filter (fun x => x.1 = k)).map Prod.snd)) := by
            refine List.map_congr_left ?_
            intro k hkm
            have hne : ¬ kv.1 = k := by
              intro h'
              rw [h'] at hk
              exact hk hkm
            rw [List.filter_cons, if_neg (by simpa using hne)]
        _ = rest.map (fun x => (x.1, [x.2])) := keys_map_entries rest hrest

theorem parse_qs_of_pairs (e : List (String × String))
    (hnd : (e.map Prod.fst).Nodup) (hv : ∀ kv ∈ e, kv.2 ≠ "") :
    Immoweb.parse_qs e = e.map (fun kv => (kv.1, [kv.2])) := by
  have hfe : e.filter (fun kv => kv.2 ≠ "") = e :=
    List.filter_eq_self.mpr (fun kv hkv => by simpa using hv kv hkv)
  simp only [Immoweb.parse_qs, hfe]
  rw [dedupKeys_eq_self _ hnd]
  exact keys_map_entries e hnd

theorem map_fst_key_pairs {α : Type} (g : String → α) :
    ∀ l : List String, (l.map (fun k => (k, g k))).map Prod.fst = l
  | [] => rfl
  | k :: ks => by simp [map_fst_key_pairs g ks]

theorem parse_qs_qdict (q : List (String × String)) :
    Immoweb.QDict (Immoweb.parse_qs q) := by
  constructor
  · rw [show List.map Prod.fst (Immoweb.parse_qs q) =
        Immoweb.dedupKeys ((q.filter (fun kv => kv.2 ≠ "")).map Prod.fst) from
      map_fst_key_pairs _ _]
    exact nodup_dedupKeys _
  · intro kv hkv
    rw [show Immoweb.parse_qs q =
        (Immoweb.dedupKeys ((q.filter (fun kv => kv.2 ≠ "")).map Prod.fst)).map
          (fun k => (k, ((q.filter (fun kv => kv.2 ≠ "")).filter
            (fun kv => kv.1 = k)).map Prod.snd)) from rfl] at hkv
    rw [List.mem_map] at hkv
    obtain ⟨k, hkmem, rfl⟩ := hkv
    constructor
    · have hk1 : k ∈ (q.filter (fun kv => kv.2 ≠ "")).map Prod.fst :=
        (mem_dedupKeys k _).mp hkmem
      obtain ⟨kv', hkv', hfst⟩ := List.mem_map.mp hk1
      have hmemf : kv' ∈ (q.filter (fun kv => kv.2 ≠ "")).filter
          (fun kv => kv.1 = k) :=
        List.mem_filter.mpr ⟨hkv', by simp [hfst]⟩
      exact List.ne_nil_of_mem (List.mem_map_of_mem Prod.snd hmemf)
    · intro v hvmem
      rw [List.mem_map] at hvmem
      obtain ⟨kv'', h'', rfl⟩ := hvmem
      have h2 := (List.mem_filter.mp (List.mem_filter.mp h'').1).2
      simpa using h2

theorem dictSet_qdict (d : List (String × List String)) (k : String)
    (v : List String) (h : Immoweb.QDict d)
    (hv : v ≠ [] ∧ ∀ x ∈ v, x ≠ "") :
    Immoweb.QDict (Immoweb.dictSet d k v) := by
  obtain ⟨hnd, hvals⟩ := h
  unfold Immoweb.dictSet
  by_cases hany : d.any (fun kv => kv.1 = k) = true
  · rw [if_pos hany]
    constructor
    · rw [show (d.map (fun kv => if kv.1 = k then (k, v) else kv)).map Prod.fst =
          d.map Prod.fst from by
        rw [List.map_map]
        refine List.map_congr_left ?_
        intro kv _
        by_cases hkk : kv.1 = k <;> simp [hkk, Function.comp]]
      exact hnd
    · intro kv hkv
      rw [List.mem_map] at hkv
      obtain ⟨kv0, hkv0, rfl⟩ := hkv
      by_cases hkk : kv0.1 = k
      · simpa [hkk] using hv
      · simpa [hkk] using hvals kv0 hkv0
  · rw [if_neg hany]
    constructor
    · rw [List.map_append]
      rw [List.nodup_append]
      refine ⟨hnd, by simp, ?_⟩
      intro x hx
      simp only [List.map_cons, List.map_nil, List.mem_singleton]
      intro hxk
      rw [List.any_eq_true] at hany
      rw [List.mem_map] at hx
      obtain ⟨kv0, hkv0, rfl⟩ := hx
      exact hany ⟨kv0, hkv0, by simpa using hxk⟩
    · intro kv hkv
      rcases List.mem_append.mp hkv with hkv | hkv
      · exact hvals kv hkv
      · rw [List.mem_singleton.mp hkv]
        exact hv

theorem dictPop_qdict (d : List (String × List String)) (k : String)
    (h : Immoweb.QDict d) : Immoweb.QDict (Immoweb.dictPop d k) := by
  obtain ⟨hnd, hvals⟩ := h
  constructor
  · exact List.Nodup.sublist ((List.filter_sublist d).map Prod.fst) hnd
  · intro kv hkv
    exact hvals kv (List.mem_of_mem_filter hkv)

theorem dictSet_mem (d : List (String × List String)) (k : String)
    (v : List String) : (k, v) ∈ Immoweb.dictSet d k v := by
  unfold Immoweb.dictSet
  by_cases hany : d.any (fun kv => kv.1 = k) = true
  · rw [if_pos hany]
    rw [List.any_eq_true] at hany
    obtain ⟨kv0, hkv0, hk0⟩ := hany
    have hk0' : kv0.1 = k := by simpa using hk0
    have himg : (fun kv => if kv.1 = k then (k, v) else kv) kv0 ∈
        d.map (fun kv => if kv.1 = k then (k, v) else kv) :=
      List.mem_map_of_mem _ hkv0
    simpa [hk0'] using himg
  · rw [if_neg hany]
    exact List.mem_append_right _ (List.mem_singleton.mpr rfl)

theorem dictSet_key_val (d : List (String × List String)) (k : String)
    (v : List String) (kv : String × List String)
    (hkv : kv ∈ Immoweb.dictSet d k v) (hk : kv.1 = k) : kv.2 = v := by
  unfold Immoweb.dictSet at hkv
  by_cases hany : d.any (fun kv => kv.1 = k) = true
  · rw [if_pos hany] at hkv
    rw [List.mem_map] at hkv
    obtain ⟨kv0, hkv0, rfl⟩ := hkv
    by_cases hkk : kv0.1 = k
    · simp [hkk]
    · rw [if_neg hkk] at hk ⊢
      exact absurd hk hkk
  · rw [if_neg hany] at hkv
    rcases List.mem_append.mp hkv with hkv | hkv
    · rw [List.any_eq_true] at hany
      exact absurd ⟨kv, hkv, by simpa using hk⟩ hany
    · rw [List.mem_singleton.mp hkv]

theorem encode_keys (d : List (String × List String))
    (h : ∀ kv ∈ d, kv.2 ≠ []) :
    (Immoweb.encodeFirstVals d).map Prod.fst = d.map Prod.fst := by
  induction d with
  | nil => rfl
  | cons kv rest ih =>
    have hne := h kv (List.mem_cons_self kv rest)
    obtain ⟨v0, vs, hv0⟩ := List.exists_cons_of_ne_nil hne
    have hf : (fun kv : String × List String =>
        kv.2.head?.map (fun v => (kv.1, v))) kv = some (kv.1, v0) := by
      simp [hv0]
    have hstep := @List.filterMap_cons_some (String × List String)
      (String × String) (fun kv => kv.2.head?.map (fun v => (kv.1, v)))
      kv rest (kv.1, v0) hf
    show (List.filterMap _ (kv :: rest)).map Prod.fst = _
    rw [hstep]
    simp only [List.map_cons]
    congr 1
    exact ih (fun kv' hkv' => h kv' (List.mem_cons_of_mem kv hkv'))

theorem encode_map_singletons (e : List (String × String)) :
    Immoweb.encodeFirstVals (e.map (fun kv => (kv.1, [kv.2]))) = e := by
  induction e with
  | nil => rfl
  | cons kv rest ih =>
    have hf : (fun kv : String × List String =>
        kv.2.head?.map (fun v => (kv.1, v))) (kv.1, [kv.2]) = some kv := rfl
    have hstep := @List.filterMap_cons_some (String × List String)
      (String × String) (fun kv => kv.2.head?.map (fun v => (kv.1, v)))
      (kv.1, [kv.2]) (rest.map (fun kv => (kv.1, [kv.2]))) kv hf
    rw [List.map_cons]
    show List.filterMap _ (_ :: _) = _
    rw [hstep]
    show kv :: Immoweb.encodeFirstVals (rest.map (fun kv => (kv.1, [kv.2]))) =
      kv :: rest
    rw [ih]

/-- C8 counterexample: the marjorietome canonicalizer is not idempotent —
cleaning the parameter name `x%%2020y` yields `x%20y`, and cleaning that
again yields `xy`, so a second canonicalization changes the URL. -/
theorem marjorietome_not_idempotent_cex :
    Marjorietome.canonicalize_marjorietome_url
        ⟨"https", "immotoma.be", "/advanced-search/", "", [("x%%2020y", "1")], ""⟩ =
      .ok ⟨"https", "immotoma.be", "/advanced-search/", "", [("x%20y", "1")], ""⟩ ∧
    Marjorietome.canonicalize_marjorietome_url
        ⟨"https", "immotoma.be", "/advanced-search/", "", [("x%20y", "1")], ""⟩ =
      .ok ⟨"https", "immotoma.be", "/advanced-search/", "", [("xy", "1")], ""⟩ ∧
    (⟨"https", "immotoma.be", "/advanced-search/", "", [("xy", "1")], ""⟩ : Url) ≠
      ⟨"https", "immotoma.be", "/advanced-search/", "", [("x%20y", "1")], ""⟩ := by
  refine ⟨rfl, rfl, by decide⟩

/-- C8 (amended): the immoweb canonicalizer is idempotent — whenever it
accepts a URL, running it again on its own output returns that output
unchanged.  (The marjorietome canonicalizer is not; see the
counterexample.) -/
theorem normalize_immoweb_idempotent (u v : Url)
    (h : Immoweb.normalize_immoweb_url u = .ok v) :
    Immoweb.normalize_immoweb_url v = .ok v := by
  unfold Immoweb.normalize_immoweb_url at h ⊢
  by_cases hhost : substrB Immoweb.IMMOWEB_HOST u.netloc = true
  case neg =>
    rw [if_neg (by simpa using hhost)] at h
    exact absurd h (by simp)
  case pos =>
  rw [if_pos hhost] at h
  have hv : v = { u with query := Immoweb.encodeFirstVals (Immoweb.dictPop
      (Immoweb.dictSet (Immoweb.parse_qs u.query) "orderBy" ["newest"])
      "page") } := (Except.ok.inj h).symm
  have hnet : substrB Immoweb.IMMOWEB_HOST v.netloc = true := by
    rw [hv]; exact hhost
  rw [if_pos hnet]
  have hq2 : Immoweb.QDict (Immoweb.dictPop
      (Immoweb.dictSet (Immoweb.parse_qs u.query) "orderBy" ["newest"]) "page") :=
    dictPop_qdict _ _ (dictSet_qdict _ _ _ (parse_qs_qdict u.query)
      ⟨by simp, by simp⟩)
  have hvq : v.query = Immoweb.encodeFirstVals (Immoweb.dictPop
      (Immoweb.dictSet (Immoweb.parse_qs u.query) "orderBy" ["newest"])
      "page") := by rw [hv]
  have hkeys : v.query.map Prod.fst = (Immoweb.dictPop
      (Immoweb.dictSet (Immoweb.parse_qs u.query) "orderBy" ["newest"])
      "page").map Prod.fst := by
    rw [hvq]
    exact encode_keys _ (fun kv hkv => (hq2.2 kv hkv).1)
  have hek : (v.query.map Prod.fst).Nodup := by rw [hkeys]; exact hq2.1
  have hmemchar : ∀ kv ∈ v.query, ∃ kv2 ∈ Immoweb.dictPop
      (Immoweb.dictSet (Immoweb.parse_qs u.query) "orderBy" ["newest"]) "page",
      kv2.1 = kv.1 ∧ kv2.2.head? = some kv.2 := by
    intro kv hkv
    rw [hvq] at hkv
    rw [Immoweb.encodeFirstVals, List.mem_filterMap] at hkv
    obtain ⟨kv2, hkv2, heq⟩ := hkv
    cases hh : kv2.2.head? with
    | none => rw [hh] at heq; exact absurd heq (by simp)
    | some v0 =>
      rw [hh] at heq
      have heq' : (kv2.1, v0) = kv := by simpa using heq
      refine ⟨kv2, hkv2, ?_, ?_⟩
      · rw [← heq']
      · rw [hh, ← heq']
  have hevals : ∀ kv ∈ v.query, kv.2 ≠ "" := by
    intro kv hkv
    obtain ⟨kv2, hkv2, -, hhead⟩ := hmemchar kv hkv
    exact (hq2.2 kv2 hkv2).2 kv.2 (List.mem_of_mem_head? hhead)
  have hpe : Immoweb.parse_qs v.query =
      v.query.map (fun kv => (kv.1, [kv.2])) :=
    parse_qs_of_pairs v.query hek hevals
  have hOe : ("orderBy", "newest") ∈ v.query := by
    rw [hvq, Immoweb.encodeFirstVals, List.mem_filterMap]
    refine ⟨("orderBy", ["newest"]), ?_, by simp⟩
    refine List.mem_filter.mpr ⟨dictSet_mem _ _ _, by simp⟩
  have hOkey : ∀ kv ∈ v.query, kv.1 = "orderBy" → kv.2 = "newest" := by
    intro kv hkv hk
    obtain ⟨kv2, hkv2, hfst, hhead⟩ := hmemchar kv hkv
    have hval : kv2.2 = ["newest"] :=
      dictSet_key_val _ "orderBy" ["newest"] kv2
        (List.mem_of_mem_filter hkv2) (hfst.trans hk)
    rw [hval] at hhead
    simpa using hhead.symm
  have hnopage : ∀ kv ∈ v.query, kv.1 ≠ "page" := by
    intro kv hkv
    obtain ⟨kv2, hkv2, hfst, -⟩ := hmemchar kv hkv
    have := (List.mem_filter.mp hkv2).2
    rw [← hfst]
    simpa using this
  have hset : Immoweb.dictSet (Immoweb.parse_qs v.query) "orderBy" ["newest"] =
      Immoweb.parse_qs v.query := by
    rw [hpe]
    unfold Immoweb.dictSet
    rw [if_pos ?hany]
    case hany =>
      rw [List.any_eq_true]
      exact ⟨("orderBy", ["newest"]),
        List.mem_map_of_mem _ hOe, by simp⟩
    rw [List.map_map]
    refine List.map_congr_left ?_
    intro kv hkv
    by_cases hkk : kv.1 = "orderBy"
    · have := hOkey kv hkv hkk
      simp [Function.comp, hkk, this]
    · simp [Function.comp, hkk]
  have hpop : Immoweb.dictPop (Immoweb.parse_qs v.query) "page" =
      Immoweb.parse_qs v.query := by
    refine List.filter_eq_self.mpr ?_
    intro kv hkv
    rw [hpe, List.mem_map] at hkv
    obtain ⟨kv0, hkv0, rfl⟩ := hkv
    simpa using hnopage kv0 hkv0
  show Except.ok { v with query := Immoweb.encodeFirstVals (Immoweb.dictPop
      (Immoweb.dictSet (Immoweb.parse_qs v.query) "orderBy" ["newest"])
      "page") } = Except.ok v
  rw [hset, hpop, hpe, encode_map_singletons]

/-- C8 witness: a concrete accepted immoweb URL run through the
canonicalizer twice. -/
theorem normalize_immoweb_idempotent_witness :
    Immoweb.normalize_immoweb_url
        ⟨"https", "www.immoweb.be", "/fr/recherche/", "",
          [("minPrice", "100"), ("orderBy", "newest")], ""⟩ =
      .ok ⟨"https", "www.immoweb.be", "/fr/recherche/", "",
          [("minPrice", "100"), ("orderBy", "newest")], ""⟩ :=
  normalize_immoweb_idempotent
    ⟨"https", "www.immoweb.be", "/fr/recherche/", "",
      [("minPrice", "100"), ("page", "2")], ""⟩
    ⟨"https", "www.immoweb.be", "/fr/recherche/", "",
      [("minPrice", "100"), ("orderBy", "newest")], ""⟩
    rfl

end AlertMe

